import Mathlib

/-!
Verification of the natural-language specification of `msjyoo/meltdown.c`
against a shallow embedding of its two source files, `src/meltdown.c` and
`src/main.c`.  Both files implement a FLUSH+RELOAD cache covert channel:
a probe buffer of 256 page-sized slots is allocated with `calloc`, every
slot's first line is flushed, then for each slot index `i` a transient
instruction sequence reads the secret byte, shifts it left by 12 bits, and
touches the probe buffer at that offset; a timed read of slot `i`'s first
qword produces a timing sample.  `meltdown.c` additionally wraps the
transient sequence in a TSX transaction (`xbegin skip` / `xend`) and keeps
a running strict-minimum `(lowestTime, lowestVal)` over the 256 samples,
initialised to `(UINT32_MAX, -1)`.
-/

namespace Meltdown

/-- `PAGE_SIZE` of the probe buffer slots (comment `4kB (page size)` and the
literal `4096` in both sources). -/
def PAGE_SIZE : Nat := 4096

/-- Number of probe-buffer slots, one per byte value (`256` in both sources). -/
def NUM_SLOTS : Nat := 256

/-- `UINT32_MAX`, the initial value of `lowestTime` in `meltdown.c` line 52. -/
def UINT32_MAX : Nat := 4294967295

/-! ## Decoder (meltdown.c lines 52-119)

`meltdown.c` keeps `uint32_t lowestTime = UINT32_MAX; int lowestVal = -1;`
and, at the end of each measured iteration `i`, executes
`if (time < lowestTime) { lowestTime = time; lowestVal = i; }`, finally
printing `(lowestVal, lowestTime)`.  A `TimingTable` is embedded as a
function `Nat → Nat` giving the `uint32_t` sample of each slot index.  -/

/-- One iteration of the running-minimum update of `meltdown.c` lines 113-116:
the accumulator is the pair `(lowestTime, lowestVal)` and `i` the slot index
of the current sample `table i`. -/
def decode_step (table : Nat → Nat) (acc : Nat × Int) (i : Nat) : Nat × Int :=
  if table i < acc.1 then (table i, (i : Int)) else acc

/-- The decoder loop of `meltdown.c`: fold the running-minimum update over
slot indices `0, 1, ..., n-1` starting from `(UINT32_MAX, -1)`
(lines 52-53), returning the final `(lowestTime, lowestVal)` pair that
line 119 prints.  The program runs it with `n = NUM_SLOTS = 256`. -/
def decode (table : Nat → Nat) (n : Nat) : Nat × Int :=
  (List.range n).foldl (decode_step table) (UINT32_MAX, -1)

/-- Unfolding one iteration off the back of the decoder loop. -/
theorem decode_succ (table : Nat → Nat) (n : Nat) :
    decode table (n + 1) = decode_step table (decode table n) n := by
  unfold decode
  rw [List.range_succ, List.foldl_append, List.foldl_cons, List.foldl_nil]

/-- If every sample strictly exceeds a bound `c` that is also below
`UINT32_MAX`, the running minimum stays strictly above `c`. -/
theorem decode_fst_gt (table : Nat → Nat) (c : Nat) (hc : c < UINT32_MAX) :
    ∀ n, (∀ i, i < n → c < table i) → c < (decode table n).1 := by
  intro n
  induction n with
  | zero => intro _; exact hc
  | succ n ih =>
    intro h
    rw [decode_succ]
    unfold decode_step
    by_cases hlt : table n < (decode table n).1
    · simp only [hlt, if_pos]
      exact h n (Nat.lt_succ_self n)
    · simp only [hlt, if_neg, not_false_eq_true]
      exact ih (fun i hi => h i (Nat.lt_succ_of_lt hi))

/-- The running minimum never exceeds its initial value `UINT32_MAX`. -/
theorem decode_fst_le (table : Nat → Nat) :
    ∀ n, (decode table n).1 ≤ UINT32_MAX := by
  intro n
  induction n with
  | zero => exact Nat.le_refl _
  | succ n ih =>
    rw [decode_succ]
    unfold decode_step
    by_cases hlt : table n < (decode table n).1
    · simp only [hlt, if_pos]
      exact Nat.le_of_lt (Nat.lt_of_lt_of_le hlt ih)
    · simp only [hlt, if_neg, not_false_eq_true]
      exact ih

/-- Core characterisation of the strict-`<` running minimum: if `i0` is the
first index attaining the minimum of the scanned prefix (every earlier
sample is strictly larger, every sample is at least `table i0`) and its
sample is below the `UINT32_MAX` sentinel, the decoder returns
`(table i0, i0)`. -/
theorem decode_first_min (table : Nat → Nat) (i0 : Nat)
    (hsent : table i0 < UINT32_MAX)
    (hbefore : ∀ i, i < i0 → table i0 < table i) :
    ∀ n, i0 < n → (∀ i, i < n → table i0 ≤ table i) →
      decode table n = (table i0, (i0 : Int)) := by
  intro n
  induction n with
  | zero => intro h; exact absurd h (Nat.not_lt_zero i0)
  | succ n ih =>
    intro hi0 hmin
    rw [decode_succ]
    unfold decode_step
    by_cases hcase : i0 < n
    · rw [ih hcase (fun i hi => hmin i (Nat.lt_succ_of_lt hi))]
      have hge : ¬ table n < table i0 :=
        Nat.not_lt.mpr (hmin n (Nat.lt_succ_self n))
      simp only [hge, if_neg, not_false_eq_true]
    · have heq : i0 = n := Nat.le_antisymm (Nat.lt_succ_iff.mp hi0) (Nat.le_of_not_lt hcase)
      subst heq
      have hup : table i0 < (decode table i0).1 :=
        decode_fst_gt table (table i0) hsent i0 (fun i hi => hbefore i hi)
      simp only [hup, if_pos]

/-- If no scanned sample is strictly below the `UINT32_MAX` sentinel, the
strict-`<` update never fires and the decoder returns the initial pair
`(UINT32_MAX, -1)`. -/
theorem decode_all_max (table : Nat → Nat) :
    ∀ n, (∀ i, i < n → ¬ table i < UINT32_MAX) →
      decode table n = (UINT32_MAX, -1) := by
  intro n
  induction n with
  | zero => intro _; rfl
  | succ n ih =>
    intro h
    rw [decode_succ, ih (fun i hi => h i (Nat.lt_succ_of_lt hi))]
    unfold decode_step
    simp only [h n (Nat.lt_succ_self n), if_neg, not_false_eq_true]

/-- If some scanned sample is strictly below the sentinel, the decoder's
reported index is a genuine slot index of the scanned range and its reported
time is below the sentinel. -/
theorem decode_some_update (table : Nat → Nat) :
    ∀ n, (∃ i, i < n ∧ table i < UINT32_MAX) →
      (decode table n).1 < UINT32_MAX ∧
        0 ≤ (decode table n).2 ∧ (decode table n).2 < (n : Int) := by
  intro n
  induction n with
  | zero => rintro ⟨i, hi, _⟩; exact absurd hi (Nat.not_lt_zero i)
  | succ n ih =>
    rintro ⟨i, hi, hlt⟩
    rw [decode_succ]
    unfold decode_step
    by_cases hprev : ∃ j, j < n ∧ table j < UINT32_MAX
    · obtain ⟨h1, h2, h3⟩ := ih hprev
      by_cases hup : table n < (decode table n).1
      · simp only [hup, if_pos]
        refine ⟨Nat.lt_of_lt_of_le hup (decode_fst_le table n), ?_, ?_⟩
        · exact Int.ofNat_nonneg n
        · show (n : Int) < ((n + 1 : Nat) : Int)
          exact_mod_cast Nat.lt_succ_self n
      · simp only [hup, if_neg, not_false_eq_true]
        exact ⟨h1, h2, lt_trans h3 (by exact_mod_cast Nat.lt_succ_self n)⟩
    · have hin : i = n := by
        rcases Nat.lt_succ_iff_lt_or_eq.mp hi with h | h
        · exact absurd ⟨i, h, hlt⟩ hprev
        · exact h
      subst hin
      rw [decode_all_max table i (fun j hj hjlt => hprev ⟨j, hj, hjlt⟩)]
      have hcond : table i < ((UINT32_MAX : Nat), (-1 : Int)).1 := hlt
      rw [if_pos hcond]
      refine ⟨hlt, Int.ofNat_nonneg i, ?_⟩
      show (i : Int) < ((i + 1 : Nat) : Int)
      exact_mod_cast Nat.lt_succ_self i

end Meltdown

namespace Meltdown

/-! ## Claims C1 and C10: the single-guess decoder -/

/-- Claim C1's tie-break sentence exactly as stated: for every 256-entry
table of `uint32_t` samples in which slots `i < j` share the global minimum
(and `i` is the first slot attaining it), the decoder returns the
lower-indexed slot `i`. -/
def tie_break_as_stated : Prop :=
  ∀ table : Nat → Nat, (∀ k, k < 256 → table k ≤ UINT32_MAX) →
    ∀ i j, i < 256 → j < 256 → i < j → table i = table j →
      (∀ k, k < 256 → table i ≤ table k) →
      (∀ k, k < i → table i < table k) →
      (decode table 256).2 = (i : Int)

/-- C1 counterexample: the table in which every slot's sample is
`UINT32_MAX` has slots 0 and 1 sharing the global minimum, yet the decoder
reports the sentinel index `-1`, not slot 0, because the strict-`<` update
against the initial `lowestTime = UINT32_MAX` never fires. -/
theorem C1_tie_break_refuted : ¬ tie_break_as_stated := by
  intro h
  have h0 := h (fun _ => UINT32_MAX) (fun k _ => Nat.le_refl _) 0 1
    (by decide) (by decide) (by decide) rfl
    (fun k _ => Nat.le_refl _) (fun k hk => absurd hk (Nat.not_lt_zero k))
  have h1 : decode (fun _ => UINT32_MAX) 256 = (UINT32_MAX, -1) :=
    decode_all_max (fun _ => UINT32_MAX) 256 (fun i _ => Nat.lt_irrefl _)
  rw [h1] at h0
  exact absurd h0 (by decide)

/-- C1 (amended): in single-guess mode the decoder returns the slot index
attaining the lowest TimingSample under strict-`<` running-minimum update.
(1) For every 256-entry `uint32_t` TimingTable in which slot `k` holds the
unique minimum, the decoder returns `(table k, k)`.  (2) When two slots
`i < j` share the global minimum, `i` is the first slot attaining it, and
that minimum is strictly below `UINT32_MAX` (the amendment forced by the
all-`UINT32_MAX` counterexample, where the sentinel `-1` is reported
instead), the decoder returns the lower-indexed slot together with its
timing value. -/
theorem C1_decoder_minimum (table : Nat → Nat)
    (ht : ∀ k, k < 256 → table k ≤ UINT32_MAX) :
    (∀ k, k < 256 → (∀ j, j < 256 → j ≠ k → table k < table j) →
        decode table 256 = (table k, (k : Int))) ∧
    (∀ i j, i < 256 → j < 256 → i < j → table i = table j →
        (∀ k, k < 256 → table i ≤ table k) →
        (∀ k, k < i → table i < table k) →
        table i < UINT32_MAX →
        decode table 256 = (table i, (i : Int))) := by
  constructor
  · intro k hk huniq
    have hsent : table k < UINT32_MAX := by
      by_cases hk0 : k = 0
      · exact Nat.lt_of_lt_of_le (huniq 1 (by decide) (by simp [hk0])) (ht 1 (by decide))
      · exact Nat.lt_of_lt_of_le (huniq 0 (by decide) (Ne.symm hk0)) (ht 0 (by decide))
    refine decode_first_min table k hsent
      (fun i hi => huniq i (Nat.lt_trans hi hk) (Nat.ne_of_lt hi)) 256 hk ?_
    intro i hi
    by_cases hik : i = k
    · exact hik ▸ Nat.le_refl _
    · exact Nat.le_of_lt (huniq i hi hik)
  · intro i j hi _ _ _ hmin hfirst hsent
    exact decode_first_min table i hsent hfirst 256 hi hmin

set_option maxRecDepth 8192 in
/-- Witness for `C1_decoder_minimum`: the spec's synthetic table with slot
40 at value 40 and all others at 400 decodes to `(40, 40)`, and a table
where slots 7 and 9 share the minimum 25 decodes to `(25, 7)`. -/
theorem C1_decoder_minimum_witness :
    decode (fun i => if i = 40 then 40 else 400) 256 = (40, (40 : Int)) ∧
    decode (fun i => if i = 7 ∨ i = 9 then 25 else 99) 256 = (25, (7 : Int)) := by
  constructor
  · have h := (C1_decoder_minimum (fun i => if i = 40 then 40 else 400)
      (by decide)).1 40 (by decide) (by decide)
    simpa using h
  · have h := (C1_decoder_minimum (fun i => if i = 7 ∨ i = 9 then 25 else 99)
      (by decide)).2 7 9 (by decide) (by decide) (by decide) (by decide)
      (by decide) (by decide) (by decide)
    simpa using h

/-- C10: the reported `lowestVal` index lies in `0..255` iff at least one of
the 256 samples is strictly below `UINT32_MAX`; if every sample equals
`UINT32_MAX`, the strict-`<` update never fires and the program reports the
initial sentinel pair `(UINT32_MAX, -1)`. -/
theorem C10_sentinel_when_all_max (table : Nat → Nat) :
    ((0 ≤ (decode table 256).2 ∧ (decode table 256).2 ≤ 255) ↔
      (∃ i, i < 256 ∧ table i < UINT32_MAX)) ∧
    ((∀ i, i < 256 → table i = UINT32_MAX) →
      decode table 256 = (UINT32_MAX, -1)) := by
  constructor
  · constructor
    · intro hrange
      by_contra hno
      have hall : ∀ i, i < 256 → ¬ table i < UINT32_MAX := by
        intro i hi hlt
        exact hno ⟨i, hi, hlt⟩
      rw [decode_all_max table 256 hall] at hrange
      exact absurd hrange.1 (by decide)
    · rintro ⟨i, hi, hlt⟩
      obtain ⟨_, h2, h3⟩ := decode_some_update table 256 ⟨i, hi, hlt⟩
      exact ⟨h2, by omega⟩
  · intro hall
    exact decode_all_max table 256 (fun i hi => by rw [hall i hi]; exact Nat.lt_irrefl _)

/-- Witness for `C10_sentinel_when_all_max`: the all-`UINT32_MAX` table
decodes to the sentinel pair. -/
theorem C10_sentinel_when_all_max_witness :
    decode (fun _ => UINT32_MAX) 256 = (UINT32_MAX, -1) :=
  (C10_sentinel_when_all_max (fun _ => UINT32_MAX)).2 (fun _ _ => rfl)

end Meltdown

namespace Meltdown

/-! ## Claims C2 and C3: event order and allocation failure

The observable steps of each program are embedded as an event trace:
`Event.flush s` is one `clflush` of slot `s` (the flush loop), `Event.access`
is one execution of the transient-access asm block, and `Event.measure s` is
the timed read of slot `s`'s first qword. -/

/-- One observable step of either program. -/
inductive Event where
  | flush (slot : Nat)
  | access
  | measure (slot : Nat)
deriving DecidableEq

/-- The per-slot trial loop shared by `meltdown.c` lines 55-117 and `main.c`
lines 44-94: iteration `i` first runs the transient-access asm block, then
the timed read of slot `i`. -/
def trial_events : List Event :=
  (List.range NUM_SLOTS).flatMap (fun i => [Event.access, Event.measure i])

/-- `meltdown.c` event order (lines 47-117): one flush loop over all 256
slots, then the 256 trial iterations. -/
def meltdown_trace : List Event :=
  ((List.range NUM_SLOTS).map Event.flush) ++ trial_events

/-- `main.c` event order (lines 39-94): one flush loop over all 256 slots,
then the 256 trial iterations. -/
def main_trace : List Event :=
  ((List.range NUM_SLOTS).map Event.flush) ++ trial_events

/-- Claim C2 exactly as stated: between any two consecutive invocations of
the transient-access block in `meltdown.c`'s trace (i.e. between the
previous trial's measurement and this trial's transient access), a full
flush of all 256 slots occurs. -/
def reflush_between_trials_as_stated : Prop :=
  ∀ p q : Nat, p < q →
    meltdown_trace[p]? = some Event.access →
    meltdown_trace[q]? = some Event.access →
    (∀ r : Nat, p < r → r < q → meltdown_trace[r]? ≠ some Event.access) →
    ∀ s, s < NUM_SLOTS →
      ∃ r : Nat, p < r ∧ r < q ∧ meltdown_trace[r]? = some (Event.flush s)

set_option maxRecDepth 8192 in
/-- C2 counterexample: the first transient access is at trace position 256
and the second at position 258; the only event between them is
`measure 0` (position 257), so no flush — let alone a full flush of all 256
slots — separates the first trial's measurement from the second trial's
transient access. -/
theorem C2_reflush_refuted : ¬ reflush_between_trials_as_stated := by
  intro h
  have h256 : meltdown_trace[256]? = some Event.access := by decide
  have h258 : meltdown_trace[258]? = some Event.access := by decide
  have h257 : meltdown_trace[257]? = some (Event.measure 0) := by decide
  have hcons : ∀ r : Nat, 256 < r → r < 258 → meltdown_trace[r]? ≠ some Event.access := by
    intro r h1 h2
    have hr : r = 257 := by omega
    subst hr
    rw [h257]
    decide
  obtain ⟨r, hr1, hr2, hr3⟩ := h 256 258 (by decide) h256 h258 hcons 0 (by decide)
  have hr : r = 257 := by omega
  subst hr
  rw [h257] at hr3
  exact absurd hr3 (by decide)

/-- No event of the trial loop is a flush. -/
theorem trial_events_no_flush : ∀ e ∈ trial_events, ∀ s, e ≠ Event.flush s := by
  intro e he s
  rw [trial_events, List.mem_flatMap] at he
  obtain ⟨i, _, hi⟩ := he
  simp only [List.mem_cons, List.mem_singleton, List.not_mem_nil, or_false] at hi
  rcases hi with h | h
  · subst h; intro hc; exact Event.noConfusion hc
  · subst h; intro hc; exact Event.noConfusion hc

/-- A list none of whose members is a flush has no flush at any position. -/
theorem getElem?_no_flush (l : List Event)
    (hl : ∀ e ∈ l, ∀ s, e ≠ Event.flush s) :
    ∀ (r : Nat) (s : Nat), l[r]? ≠ some (Event.flush s) := by
  intro r s hc
  exact hl (Event.flush s) (List.getElem?_mem hc) s rfl

set_option maxRecDepth 8192 in
/-- C2 (amended): the full flush of all 256 slots runs exactly once, before
the first transient-access invocation — positions `0..255` of both traces
are `flush 0, ..., flush 255` and position 256 is the first transient
access — and no flush of any slot ever occurs again afterwards (every trial
after the first begins with no reflush since the previous measurement). -/
theorem C2_flush_once_before_all_trials :
    (∀ s, s < NUM_SLOTS → meltdown_trace[s]? = some (Event.flush s)) ∧
    meltdown_trace[256]? = some Event.access ∧
    (∀ (r : Nat) (s : Nat), 256 ≤ r → meltdown_trace[r]? ≠ some (Event.flush s)) ∧
    (∀ s, s < NUM_SLOTS → main_trace[s]? = some (Event.flush s)) ∧
    main_trace[256]? = some Event.access ∧
    (∀ (r : Nat) (s : Nat), 256 ≤ r → main_trace[r]? ≠ some (Event.flush s)) := by
  have hlen : ((List.range NUM_SLOTS).map Event.flush).length = 256 := by
    rw [List.length_map, List.length_range]
    rfl
  have hsuffix : ∀ (r : Nat) (s : Nat), 256 ≤ r →
      ¬ ((List.range NUM_SLOTS).map Event.flush ++ trial_events)[r]? =
        some (Event.flush s) := by
    intro r s hr
    rw [List.getElem?_append_right (hlen ▸ hr)]
    exact getElem?_no_flush trial_events trial_events_no_flush _ s
  refine ⟨by decide, by decide, hsuffix, by decide, by decide, hsuffix⟩

/-- Witness for `C2_flush_once_before_all_trials` at concrete positions:
slot 0's flush is the first event and position 300 holds no flush. -/
theorem C2_flush_once_before_all_trials_witness :
    meltdown_trace[0]? = some (Event.flush 0) ∧
    meltdown_trace[300]? ≠ some (Event.flush 17) :=
  ⟨C2_flush_once_before_all_trials.1 0 (by decide),
   C2_flush_once_before_all_trials.2.2.1 300 17 (by decide)⟩

end Meltdown

namespace Meltdown

/-- Top-level outcome of one program run as a function of whether the
`calloc` of the probe buffer succeeds: the process exit status, whether the
allocation-failure message was printed (`perror`), and the trace of
flush/access/measure events the run performs. -/
structure RunResult where
  exitCode : Nat
  reportedAllocationError : Bool
  events : List Event
deriving DecidableEq

/-- `meltdown.c` lines 41-121: if `calloc` returns `NULL` the program calls
`perror` and `exit(1)` before any flush, transient access, or timed read
(lines 42-45); otherwise it performs the full trace and returns 0. -/
def meltdown_run (allocOk : Bool) : RunResult :=
  if allocOk then ⟨0, false, meltdown_trace⟩ else ⟨1, true, []⟩

/-- `main.c` lines 36-97: `calloc`'s result is never tested (the file's own
comment at line 37 reads `TODO: Check rbx != NULL`), so the program performs
the full flush/access/measure trace and returns 0 whether or not the
allocation succeeded. -/
def main_run ( _allocOk : Bool) : RunResult :=
  ⟨0, false, main_trace⟩

set_option maxRecDepth 8192 in
/-- C3, evaluated at the failing input `allocOk = false`: `meltdown.c` does
report the allocation error and exit 1 having performed no flush, access, or
timing step, but `main.c` — whose own `TODO: Check rbx != NULL` comment
records the missing check — silently ignores the failure, runs its whole
flush/access/measure trace on the NULL buffer, and exits 0. -/
theorem C3_alloc_failure_behaviour :
    meltdown_run false = ⟨1, true, []⟩ ∧
    (main_run false).reportedAllocationError = false ∧
    (main_run false).exitCode = 0 ∧
    (main_run false).events ≠ [] := by
  refine ⟨rfl, rfl, rfl, ?_⟩
  intro hc
  have h0 : main_trace[0]? = some (Event.flush 0) := by decide
  rw [show (main_run false).events = main_trace from rfl] at hc
  rw [hc] at h0
  exact Option.noConfusion h0

end Meltdown


namespace Meltdown

/-! ## Claims C4, C7, C8, C9: addressing and the probe buffer -/

/-- The probe-buffer offset the transient asm block computes
(`meltdown.c` lines 67-76, `main.c` lines 55-61): `rax` is zeroed
(`xor rax, rax`), its low byte `al` receives the secret byte
(`mov al, BYTE PTR [rcx]`, so `rax = secret % 256`), and
`shl rax, 0xc` shifts left by 12 bits in the 64-bit register. -/
def transient_offset (secret : Nat) : Nat :=
  ((secret % 256) <<< 12) % (2 ^ 64)

/-- The byte offset the flush loop passes to `clflush` for slot `i`
(`probe_array + (i * 4096)`, `meltdown.c` line 49 / `main.c` line 41). -/
def flush_target_offset (i : Nat) : Nat := i * 4096

/-- Byte offsets read by the timing step's qword load of slot `i`
(`mov rax, QWORD PTR [%1]` with `%1 = probe_array + i*4096`,
`meltdown.c` line 97 / `main.c` line 78): 8 consecutive bytes from
`i*4096`. -/
def timing_read_bytes (i : Nat) : List Nat :=
  (List.range 8).map (fun b => i * 4096 + b)

/-- Byte offsets read by the transient qword load
(`mov %1, QWORD PTR [%1 + rax]`, `meltdown.c` line 76 / `main.c` line 61):
8 consecutive bytes from the computed transient offset. -/
def transient_read_bytes (secret : Nat) : List Nat :=
  (List.range 8).map (fun b => transient_offset secret + b)

/-- The zero-extend-and-shift of the transient block computes exactly
`secret * 4096` for secret byte values below 256. -/
theorem transient_offset_eq (s : Nat) (hs : s < 256) :
    transient_offset s = s * 4096 := by
  have hmod : s % 256 = s := Nat.mod_eq_of_lt hs
  have h64 : (2 : Nat) ^ 64 = 18446744073709551616 := by norm_num
  have hsmall : s * 4096 < 2 ^ 64 := by omega
  unfold transient_offset
  rw [hmod, Nat.shiftLeft_eq]
  exact Nat.mod_eq_of_lt (by simpa using hsmall)

/-- Offsets within the first page stay in their own slot. -/
theorem slot_of_offset (i b : Nat) (hb : b < 4096) :
    (i * 4096 + b) / 4096 = i := by
  rw [Nat.add_comm, Nat.add_mul_div_right b i (by omega)]
  rw [Nat.div_eq_of_lt hb]
  omega

/-- C4: for every secret byte value `0..255` the transient access unit's
zero-extend-and-shift computes `offset = secret * 4096` exactly, with no
64-bit overflow, and its single qword access falls entirely within the
first bytes of the slot indexed by the secret value and of no other slot. -/
theorem C4_transient_offset_exact (s : Nat) (hs : s < 256) :
    transient_offset s = s * 4096 ∧
    s * 4096 < 2 ^ 64 ∧
    (∀ b, b < 8 → (transient_offset s + b) / 4096 = s) := by
  have h64 : (2 : Nat) ^ 64 = 18446744073709551616 := by norm_num
  have hsmall : s * 4096 < 2 ^ 64 := by omega
  refine ⟨transient_offset_eq s hs, hsmall, ?_⟩
  intro b hb
  rw [transient_offset_eq s hs]
  exact slot_of_offset s b (by omega)

/-- Witness for `C4_transient_offset_exact` at the secret value `0xff`
actually stored in `some_data` in both sources. -/
theorem C4_transient_offset_exact_witness :
    transient_offset 255 = 255 * 4096 ∧
    (transient_offset 255 + 7) / 4096 = 255 :=
  ⟨(C4_transient_offset_exact 255 (by decide)).1,
   (C4_transient_offset_exact 255 (by decide)).2.2 7 (by decide)⟩

/-- Claim C7's invariant exactly as stated: every transient access and
timing read touches only byte offset `i * 4096` itself — no byte of any
slot beyond its first byte. -/
def only_first_byte_as_stated : Prop :=
  (∀ i, i < 256 → ∀ b ∈ timing_read_bytes i, b = i * 4096) ∧
  (∀ s, s < 256 → ∀ b ∈ transient_read_bytes s, b = s * 4096)

/-- C7 counterexample: the timing step's qword read of slot 0 touches byte
offset 7, which is a byte of slot 0 beyond its first. -/
theorem C7_only_first_byte_refuted : ¬ only_first_byte_as_stated := by
  intro h
  have h7 : (7 : Nat) ∈ timing_read_bytes 0 := by decide
  have := h.1 0 (by decide) 7 h7
  omega

/-- C7 (amended): every flush names exactly byte offset `i * 4096`, and
every transient access and timing read is a single qword load touching only
the first 8 bytes `i*4096 .. i*4096+7` of its slot — inside the slot's
first cache line, and never any byte of a different slot. -/
theorem C7_first_qword_only (i : Nat) (hi : i < 256) :
    flush_target_offset i = i * 4096 ∧
    (∀ b ∈ timing_read_bytes i, i * 4096 ≤ b ∧ b < i * 4096 + 8 ∧ b / 4096 = i) ∧
    (∀ b ∈ transient_read_bytes i, i * 4096 ≤ b ∧ b < i * 4096 + 8 ∧ b / 4096 = i) := by
  refine ⟨rfl, ?_, ?_⟩
  · intro b hb
    rw [timing_read_bytes, List.mem_map] at hb
    obtain ⟨k, hk, hbk⟩ := hb
    rw [List.mem_range] at hk
    subst hbk
    exact ⟨Nat.le_add_right _ _, by omega, slot_of_offset i k (by omega)⟩
  · intro b hb
    rw [transient_read_bytes, List.mem_map] at hb
    obtain ⟨k, hk, hbk⟩ := hb
    rw [List.mem_range] at hk
    subst hbk
    rw [transient_offset_eq i hi]
    exact ⟨Nat.le_add_right _ _, by omega, slot_of_offset i k (by omega)⟩

/-- Witness for `C7_first_qword_only` at slot 3: the flush names offset
`3 * 4096` and the last byte of the timing qword stays inside slot 3. -/
theorem C7_first_qword_only_witness :
    flush_target_offset 3 = 3 * 4096 ∧ (3 * 4096 + 7) / 4096 = 3 :=
  ⟨(C7_first_qword_only 3 (by decide)).1,
   ((C7_first_qword_only 3 (by decide)).2.1 (3 * 4096 + 7) (by decide)).2.2⟩

end Meltdown

namespace Meltdown

/-- The 64-bit address the flush loop computes for slot `i`
(`probe_array + (i * 4096)`, `meltdown.c` line 49 / `main.c` line 41),
as pointer arithmetic modulo `2^64` on the buffer base address. -/
def flush_addr (base i : Nat) : Nat := (base + i * 4096) % (2 ^ 64)

/-- The 64-bit address the timing-measurement step computes for slot `i`
(`probe_array + (i * 4096)`, `meltdown.c` line 108 / `main.c` line 89). -/
def timing_addr (base i : Nat) : Nat := (base + i * 4096) % (2 ^ 64)

/-- C8: for every slot index `i` in `0..256`, the flush step and the
timing-measurement step compute the same address
`probe_buffer_base + i*4096`; the 256 addresses are pairwise distinct, and
when the buffer base is page-aligned each of them is page-aligned, so no
slot's address aliases the first byte of a different slot. -/
theorem C8_slot_addresses (base i j : Nat) (hi : i < 256) (hj : j < 256) :
    flush_addr base i = timing_addr base i ∧
    flush_addr base i = (base + i * 4096) % (2 ^ 64) ∧
    (i ≠ j → flush_addr base i ≠ flush_addr base j) ∧
    (base % 4096 = 0 → flush_addr base i % 4096 = 0) := by
  have h64 : (2 : Nat) ^ 64 = 18446744073709551616 := by norm_num
  refine ⟨rfl, rfl, ?_, ?_⟩
  · intro hne heq
    unfold flush_addr at heq
    rw [h64] at heq
    omega
  · intro halign
    unfold flush_addr
    rw [h64]
    omega

/-- Witness for `C8_slot_addresses` on a page-aligned base: slots 1 and 2
of a buffer based at 8192 get distinct page-aligned addresses. -/
theorem C8_slot_addresses_witness :
    flush_addr 8192 1 = timing_addr 8192 1 ∧
    flush_addr 8192 1 ≠ flush_addr 8192 2 ∧
    flush_addr 8192 1 % 4096 = 0 :=
  ⟨(C8_slot_addresses 8192 1 2 (by decide) (by decide)).1,
   (C8_slot_addresses 8192 1 2 (by decide) (by decide)).2.2.1 (by decide),
   (C8_slot_addresses 8192 1 2 (by decide) (by decide)).2.2.2 (by decide)⟩

/-- The probe buffer as `calloc(4096 * 256, sizeof(uint8_t))` returns it
(`meltdown.c` line 41 / `main.c` line 36): a contiguous sequence of
`4096 * 256` zero bytes. -/
def probe_buffer : List Nat := List.replicate (4096 * 256) 0

/-- C9: a successful probe-buffer allocation is a zero-filled contiguous
region of exactly `4096 * 256 = 1048576` bytes — every byte offset below
`1048576` reads 0 — and slot `i` spans byte offsets
`[i*4096, i*4096 + 4096)`, each of which lies inside the region and inside
slot `i` only. -/
theorem C9_probe_buffer_zeroed (i off k : Nat)
    (hi : i < 256) (hoff : off < 4096) (hk : k < 1048576) :
    probe_buffer.length = 1048576 ∧
    probe_buffer[k]? = some 0 ∧
    i * 4096 + off < 1048576 ∧
    (i * 4096 + off) / 4096 = i := by
  refine ⟨by rw [probe_buffer, List.length_replicate], ?_, by omega,
    slot_of_offset i off hoff⟩
  rw [probe_buffer, List.getElem?_replicate]
  simp only [if_pos (show k < 4096 * 256 by omega)]

/-- Witness for `C9_probe_buffer_zeroed`: the last byte of the last slot is
inside the region and reads zero. -/
theorem C9_probe_buffer_zeroed_witness :
    probe_buffer.length = 1048576 ∧
    probe_buffer[1048575]? = some 0 ∧
    255 * 4096 + 4095 < 1048576 ∧
    (255 * 4096 + 4095) / 4096 = 255 :=
  C9_probe_buffer_zeroed 255 4095 1048575 (by decide) (by decide) (by decide)

end Meltdown

namespace Meltdown

/-! ## Claim C5: Strategy A's retry loop

The loop `retry: mov al, BYTE PTR [%0]; shl rax, 0xc; jz retry`
(`main.c` lines 57-60, also inside the transaction in `meltdown.c` lines
72-75) re-issues the read-and-shift until the shifted value is nonzero.
Because the branch is taken only when `rax = 0`, every iteration starts
from a zeroed `rax`, so the loop is a pure function of the shifted value
each invocation of the sequence produces; invocation `k`'s shifted value is
embedded as `f k`.  The loop has no iteration cap in the source, so it is
embedded with explicit fuel. -/

/-- The retry loop: `k` counts read-and-shift invocations issued so far;
each invocation yields the shifted value `f k`, and the loop branches back
while that value is zero.  Returns `(index of the succeeding invocation,
its nonzero shifted value)`, or `none` if the fuel runs out first. -/
def retryLoop (f : Nat → Nat) : Nat → Nat → Option (Nat × Nat)
  | 0, _ => none
  | fuel + 1, k => if f k = 0 then retryLoop f fuel (k + 1) else some (k, f k)

/-- Generalisation of C5 to a loop started at invocation `j`. -/
theorem retryLoop_exact (f : Nat → Nat) :
    ∀ N j fuel, (∀ m, m < N → f (j + m) = 0) → f (j + N) ≠ 0 → N < fuel →
      retryLoop f fuel j = some (j + N, f (j + N)) := by
  intro N
  induction N with
  | zero =>
    intro j fuel _ h1 hfuel
    match fuel, hfuel with
    | fuel + 1, _ =>
      unfold retryLoop
      simp only [Nat.add_zero] at h1 ⊢
      simp only [h1, if_neg, not_false_eq_true]
  | succ N ih =>
    intro j fuel h0 h1 hfuel
    match fuel, hfuel with
    | fuel + 1, hfuel =>
      unfold retryLoop
      have hj : f j = 0 := by
        have := h0 0 (Nat.succ_pos N)
        simpa using this
      simp only [hj, if_pos]
      have hrec := ih (j + 1) fuel
        (fun m hm => by
          have := h0 (m + 1) (Nat.succ_lt_succ hm)
          simpa [Nat.add_assoc, Nat.add_comm 1 m] using this)
        (by
          have : j + 1 + N = j + (N + 1) := by omega
          rw [this]; exact h1)
        (by omega)
      rw [hrec]
      have : j + 1 + N = j + (N + 1) := by omega
      rw [this]

/-- C5: if the modeled read-and-shift sequence yields a zero shifted value
on its first `N` invocations (indices `0..N-1`) and a nonzero value on
invocation `N+1` (index `N`), then for any fuel above `N` the Strategy A
retry loop branches back exactly `N` times and then proceeds, returning the
index `N` of the succeeding invocation and its nonzero value — in
particular the loop terminates under the precondition that a nonzero
shifted value is eventually produced. -/
theorem C5_retry_exactly_N (f : Nat → Nat) (N : Nat)
    (h0 : ∀ m, m < N → f m = 0) (h1 : f N ≠ 0) :
    ∀ fuel, N < fuel → retryLoop f fuel 0 = some (N, f N) := by
  intro fuel hfuel
  have h := retryLoop_exact f N 0 fuel (fun m hm => by simpa using h0 m hm)
    (by simpa using h1) hfuel
  simpa using h

/-- Witness for `C5_retry_exactly_N`: a sequence that yields 0 on its first
three invocations and 7 on the fourth makes the loop retry exactly three
times. -/
theorem C5_retry_exactly_N_witness :
    retryLoop (fun k => if k < 3 then 0 else 7) 10 0 = some (3, 7) := by
  have h := C5_retry_exactly_N (fun k => if k < 3 then 0 else 7) 3
    (by decide) (by decide) 10 (by decide)
  simpa using h

end Meltdown

namespace Meltdown

/-! ## Claim C6: Strategy B's transaction-contained sequence

The asm block of `meltdown.c` lines 64-84 is embedded instruction by
instruction, and run under a small-step executor whose transaction
semantics follow the TSX contract the source relies on (`xbegin skip`
names the abort handler; an abort rolls architectural state back to the
`xbegin` point and transfers control there with no fault delivered, while
cache side effects of completed transient loads survive). -/

/-- The instructions of the `meltdown.c` transient asm block, in source
order (lines 64-80). -/
inductive TInstr where
  | mfenceI
  | lfenceI
  | xorRax
  | xbeginSkip
  | labelRetry
  | movSecretAl
  | shlRax12
  | jzRetry
  | probeLoad
  | xendI
  | labelSkip
deriving DecidableEq

/-- The `meltdown.c` asm block (lines 64-80) as an instruction list:
`mfence; lfence; xor rax, rax; xbegin skip; retry: mov al, BYTE PTR [rcx];
shl rax, 0xc; jz retry; mov rbx, QWORD PTR [rbx + rax]; xend; skip:`. -/
def strategyB : List TInstr :=
  [.mfenceI, .lfenceI, .xorRax, .xbeginSkip, .labelRetry, .movSecretAl,
   .shlRax12, .jzRetry, .probeLoad, .xendI, .labelSkip]

/-- Position of the `skip:` abort-handler label in `strategyB`. -/
def skipPos : Nat := 10

/-- Position of the `retry:` label in `strategyB`. -/
def retryPos : Nat := 4

/-- Machine state of the executor: the 64-bit register `rax`, whether a
transaction is open, the architectural snapshot taken at `xbegin` (restored
on abort), the list of probe-buffer slots whose first line became cache
resident (a microarchitectural effect, so it survives aborts), the list of
instructions issued so far, and whether a fault was delivered to the
process. -/
structure TXState where
  rax : Nat
  inTx : Bool
  txSnapshot : Nat
  warmed : List Nat
  executed : List TInstr
  faultDelivered : Bool
deriving DecidableEq

/-- Initial machine state. -/
def initTX : TXState := ⟨0, false, 0, [], [], false⟩

/-- Fuel-indexed small-step execution of `strategyB` from program counter
`pc`.  `secretFaults` says whether the read of the secret byte would fault
(a protected address); `secret` is the byte it yields otherwise.  Falling
past the final instruction means the sequence completed and the trial
continues (`some` final state); `none` means the fuel ran out. -/
def txRun (secretFaults : Bool) (secret : Nat) : Nat → Nat → TXState → Option TXState
  | 0, _, _ => none
  | fuel + 1, pc, s =>
    match strategyB[pc]? with
    | none => some s
    | some ins =>
      let s1 : TXState := { s with executed := s.executed ++ [ins] }
      match ins with
      | .mfenceI => txRun secretFaults secret fuel (pc + 1) s1
      | .lfenceI => txRun secretFaults secret fuel (pc + 1) s1
      | .labelRetry => txRun secretFaults secret fuel (pc + 1) s1
      | .labelSkip => txRun secretFaults secret fuel (pc + 1) s1
      | .xorRax => txRun secretFaults secret fuel (pc + 1) { s1 with rax := 0 }
      | .xbeginSkip =>
          txRun secretFaults secret fuel (pc + 1)
            { s1 with inTx := true, txSnapshot := s1.rax }
      | .movSecretAl =>
          if secretFaults then
            if s1.inTx then
              txRun secretFaults secret fuel skipPos
                { s1 with rax := s1.txSnapshot, inTx := false }
            else
              some { s1 with faultDelivered := true }
          else
            txRun secretFaults secret fuel (pc + 1)
              { s1 with rax := s1.rax / 256 * 256 + secret % 256 }
      | .shlRax12 =>
          txRun secretFaults secret fuel (pc + 1)
            { s1 with rax := s1.rax * 4096 % 2 ^ 64 }
      | .jzRetry =>
          if s1.rax = 0 then txRun secretFaults secret fuel retryPos s1
          else txRun secretFaults secret fuel (pc + 1) s1
      | .probeLoad =>
          txRun secretFaults secret fuel (pc + 1)
            { s1 with warmed := s1.warmed ++ [s1.rax / 4096] }
      | .xendI => txRun secretFaults secret fuel (pc + 1) { s1 with inTx := false }

/-- C6, at the secret value `0xff` the sources store in `some_data`:
structurally, the instruction immediately after the indexed load is `xend`
and the `skip:` abort-handler label follows it.  If the enclosed sequence
would fault, the transaction aborts — the issued-instruction trace jumps
from the faulting secret read straight to the `skip:` label — no fault is
delivered, no slot is warmed, and the run completes normally.  If it does
not fault, every instruction executes exactly once in source order (so
`xend` is issued immediately after the indexed load, before any further
instruction), the same continuation point `skip:` is reached, slot `0xff`
alone is warmed, and again no fault is delivered. -/
theorem C6_transaction_contained :
    strategyB[8]? = some TInstr.probeLoad ∧
    strategyB[9]? = some TInstr.xendI ∧
    strategyB[10]? = some TInstr.labelSkip ∧
    txRun true 255 20 0 initTX =
      some ⟨0, false, 0, [],
        [.mfenceI, .lfenceI, .xorRax, .xbeginSkip, .labelRetry,
         .movSecretAl, .labelSkip], false⟩ ∧
    txRun false 255 20 0 initTX =
      some ⟨1044480, false, 0, [255], strategyB, false⟩ := by
  refine ⟨rfl, rfl, rfl, rfl, ?_⟩
  decide

end Meltdown
